import Mathlib

/-!
Verification of the KTF kernel test framework core (`kernel/kcheck.c`):
a shallow embedding of the test-case registry, the hook lists and the
batched assertion-reporting protocol, together with proofs of the spec's
testable properties.

Machine integers are modelled as `Nat`/`Int` with explicit reduction
modulo 2^32 where the C type is `u32`.  Fallible C code (allocation,
map insertion) is driven by explicit Boolean oracles, and executions
that dereference an invalid pointer or write outside an allocated
buffer are explicit outcomes of the embedding rather than undefined
behaviour.
-/

namespace Kcheck

/-- Outcome of running a piece of C code: a normal return value, an
execution that dereferenced a null (or null-based) pointer, or an
execution that performed a store outside the bounds of its buffer
(`oobWrite idx size`: a write at byte offset `idx` into a buffer of
`size` bytes, with `size ≤ idx`). -/
inductive CRes (α : Type) where
  | ok (a : α)
  | nullDeref
  | oobWrite (idx size : Nat)
deriving DecidableEq

/-- `struct __test_desc`: the descriptor a registration macro passes to
`_tcase_add_test` (fields `name`, `tclass`, `file`, `fun`; the function
pointer is opaque and modelled as a `Nat`). -/
structure TestDesc where
  name : String
  tclass : String
  file : String
  fn : Nat
deriving DecidableEq

/-- `struct fun_hook`: one registered test.  `id` stands for the identity
of the allocated object (its address) so that the same hook can be
recognised in the two lists it is linked into; `handle` stands for the
`ktf_handle *` back-pointer, `fn` for the `fun` field and `end_` for the
C field `end`. -/
structure FunHook where
  id : Nat
  name : String
  tclass : String
  fn : Nat
  start : Int
  end_ : Int
  handle : Nat
deriving DecidableEq

/-- `struct ktf_case`: a named test set with its `fun_list`.  The list is
kept in the order `list_for_each` traverses it (head first); the kernel's
`list_add` therefore prepends. -/
structure KtfCase where
  name : String
  fun_list : List FunHook
deriving DecidableEq

/-- The mutable state the registry operations touch: the global
`test_cases` map (as the sequence of its entries) and, for each
`ktf_handle` (identified by a `Nat`), that handle's `test_list`. -/
structure KtfState where
  test_cases : List KtfCase
  handles : List (Nat × List FunHook)
deriving DecidableEq

/-- Kernel `list_add`: inserts the new entry right after the list head,
i.e. prepends it to the traversal order. -/
def list_add {α : Type} (x : α) (l : List α) : List α := x :: l

/-- `list_del(&fh->flist)` for the hook with identity `hid`: the hook is
unlinked from whichever case's `fun_list` it is on. -/
def list_del_hook (hid : Nat) (m : List KtfCase) : List KtfCase :=
  m.map (fun c => { c with fun_list := c.fun_list.filter (fun h => h.id != hid) })

/-- `ktf_map_size(&test_cases)`. -/
def ktf_map_size (m : List KtfCase) : Nat := m.length

/-- `ktf_case_count()`: current number of test cases. -/
def ktf_case_count (st : KtfState) : Nat := ktf_map_size st.test_cases

/-- `ktf_map_find_entry(&test_cases, name, ...)` as used by
`ktf_case_find`: exact lookup by name. -/
def ktf_case_find (m : List KtfCase) (name : String) : Option KtfCase :=
  m.find? (fun c => c.name == name)

/-- `ktf_case_create`: allocates a `ktf_case`, initialises its `fun_list`
and its map element.  `allocOk` is the `kmalloc` oracle and `elemInitOk`
the `ktf_map_elem_init` oracle; on either failure the function returns
NULL (freeing the allocation in the second case). -/
def ktf_case_create (allocOk elemInitOk : Bool) (name : String) : Option KtfCase :=
  if allocOk then
    if elemInitOk then some { name := name, fun_list := [] }
    else none
  else none

/-- Modelled from the spec: `ktf_map_insert`, the NameMap insert
primitive, whose implementation is not part of this repository (the spec
describes the NameMap as an external dependency specified only by
contract: insert keyed by the element's unique name, failing without
mutation on a duplicate key or an internal failure, here the oracle
`insertOk`).  The primitive links the element it is handed into the map,
so passing it a null element pointer is an invalid dereference. -/
def ktf_map_insert (insertOk : Bool) (m : List KtfCase) (tc : Option KtfCase) :
    CRes (Int × List KtfCase) :=
  match tc with
  | none => CRes.nullDeref
  | some c =>
      if !insertOk then CRes.ok (-12, m)
      else if (m.find? (fun x => x.name == c.name)).isSome then CRes.ok (-17, m)
      else CRes.ok (0, m ++ [c])

/-- `ktf_case_find_create`: look the name up and, when absent, create a
case and insert it.  The source checks the insert's return value (and
then frees the case and returns NULL) but never checks `ktf_case_create`
for NULL before handing `&tc->kmap` to `ktf_map_insert`. -/
def ktf_case_find_create (allocOk elemInitOk insertOk : Bool)
    (m : List KtfCase) (name : String) : CRes (Option KtfCase × List KtfCase) :=
  match ktf_case_find m name with
  | some tc => CRes.ok (some tc, m)
  | none =>
      let tc := ktf_case_create allocOk elemInitOk name
      match ktf_map_insert insertOk m tc with
      | CRes.nullDeref => CRes.nullDeref
      | CRes.oobWrite i s => CRes.oobWrite i s
      | CRes.ok (ret, m2) =>
          if ret ≠ 0 then CRes.ok (none, m)
          else CRes.ok (tc, m2)

/-- The handle's `test_list` (an empty list when the identifier does not
name a handle). -/
def lookupHandle (hs : List (Nat × List FunHook)) (th : Nat) : List FunHook :=
  ((hs.find? (fun p => p.1 == th)).map Prod.snd).getD []

/-- Replace the `test_list` of handle `th` by `f` applied to it. -/
def updateHandle (hs : List (Nat × List FunHook)) (th : Nat)
    (f : List FunHook → List FunHook) : List (Nat × List FunHook) :=
  hs.map (fun p => if p.1 == th then (p.1, f p.2) else p)

/-- The `fun_hook` object `_tcase_add_test` populates: the field
assignments `fc->name = td.name; fc->tclass = td.tclass; fc->fun =
td.fun; fc->start = start; fc->end = end; fc->handle = th`. -/
def hookOf (hid : Nat) (td : TestDesc) (th : Nat) (start end_ : Int) : FunHook :=
  { id := hid, name := td.name, tclass := td.tclass, fn := td.fn,
    start := start, end_ := end_, handle := th }

/-- `_tcase_add_test`: allocate a `fun_hook` (oracle `hookAllocOk`, the
fresh object's identity being `hid`), and under `tc_lock` resolve the
case via `ktf_case_find_create`, populate the hook and link it into both
`tc->fun_list` and `th->test_list` with `list_add`.  The parameters
`signal_` and `allowed_exit_value` are accepted and ignored, as in the
source. -/
def _tcase_add_test (hookAllocOk caseAllocOk elemInitOk insertOk : Bool)
    (hid : Nat) (td : TestDesc) (th : Nat) (signal_ allowed_exit_value : Int)
    (start end_ : Int) (st : KtfState) : CRes KtfState :=
  if !hookAllocOk then CRes.ok st
  else
    match ktf_case_find_create caseAllocOk elemInitOk insertOk st.test_cases td.tclass with
    | CRes.nullDeref => CRes.nullDeref
    | CRes.oobWrite i s => CRes.oobWrite i s
    | CRes.ok (none, m) => CRes.ok { st with test_cases := m }
    | CRes.ok (some tc, m) =>
        let fc := hookOf hid td th start end_
        CRes.ok { st with
          test_cases := m.map (fun c =>
            if c.name == tc.name then { c with fun_list := list_add fc c.fun_list }
            else c),
          handles := updateHandle st.handles th (list_add fc) }

/-- `_tcase_cleanup`: under `tc_lock`, walk `th->test_list` with
`list_for_each_safe`, unlinking every hook from both lists and freeing
it; the handle's `test_list` is empty afterwards. -/
def _tcase_cleanup (th : Nat) (st : KtfState) : KtfState :=
  { test_cases :=
      (lookupHandle st.handles th).foldl (fun m fh => list_del_hook fh.id m) st.test_cases,
    handles := updateHandle st.handles th (fun _ => []) }

/-- The scan `ktf_cleanup` performs: for each case in map order, walk its
`fun_list`; the first hook found makes the function report the stranded
case and hook.  `none` means every case's `fun_list` was empty. -/
def ktf_cleanup_scan : List KtfCase → Option (KtfCase × FunHook)
  | [] => none
  | tc :: rest =>
      match tc.fun_list with
      | [] => ktf_cleanup_scan rest
      | fh :: _ => some (tc, fh)

/-- `-EBUSY`. -/
def EBUSY : Int := 16

/-- `ktf_cleanup`: takes `tc_lock`, scans every case; on the first live
hook it returns `-EBUSY` from inside the loop — without running
`mutex_unlock` — leaving all state intact.  Only when every case is
empty does it delete all cases and unlock.  The third component records
whether `tc_lock` is still held when the function returns. -/
def ktf_cleanup (st : KtfState) : Int × KtfState × Bool :=
  match ktf_cleanup_scan st.test_cases with
  | some _ => (-EBUSY, st, true)
  | none => (0, { st with test_cases := [] }, false)

/-! ### The reporting protocol (`assert_cnt`, `flush_assert_cnt`, `_fail_unless`) -/

/-- `MAX_PRINTF`. -/
def MAX_PRINTF : Nat := 4096

/-- 2^32, the modulus of the C type `u32`. -/
def U32_MOD : Nat := 4294967296

/-- The value a `u32` store keeps of a C `int`. -/
def u32ofInt (x : Int) : Nat := (x % (U32_MOD : Int)).toNat

/-- One netlink attribute appended to the outgoing `sk_buff`, tagged with
the KTF attribute type the source passes to `nla_put_*`. -/
inductive Attr where
  | KTF_A_STAT (v : Nat)
  | KTF_A_FILE (s : String)
  | KTF_A_NUM (v : Nat)
  | KTF_A_STR (s : String)
deriving DecidableEq

/-- The reporting state: the global `assert_cnt` (`u32`) and the
attributes appended so far to the outgoing `sk_buff`. -/
structure ReportState where
  assert_cnt : Nat
  skb : List Attr
deriving DecidableEq

/-- `flush_assert_cnt`: when `assert_cnt` is nonzero, append it as a
`KTF_A_STAT` attribute and reset it to zero; otherwise do nothing. -/
def flush_assert_cnt (st : ReportState) : ReportState :=
  if st.assert_cnt ≠ 0 then
    { assert_cnt := 0, skb := st.skb ++ [Attr.KTF_A_STAT st.assert_cnt] }
  else st

/-- `_fail_unless`: on a nonzero `result`, increment `assert_cnt` and
return.  On `result == 0`: flush the counter, append the result code,
`kmalloc` a `MAX_PRINTF`-byte buffer (oracle `allocOk`; the result is
not checked), append file and line, format the message with
`vsnprintf(buf, MAX_PRINTF-1, ...)` — which truncates to `MAX_PRINTF-2`
characters but returns the untruncated length `len` — execute
`buf[len] = 0`, append the buffer as the message attribute and return
`result`.  `msg` is the fully formatted (untruncated) text.  When the
allocation failed, `vsnprintf` stores through a null buffer; when
`msg.length ≥ MAX_PRINTF`, `buf[len] = 0` stores outside the buffer. -/
def _fail_unless (allocOk : Bool) (st : ReportState) (result : Int)
    (file : String) (line : Int) (msg : String) : CRes (Int × ReportState) :=
  if result ≠ 0 then
    CRes.ok (result, { st with assert_cnt := (st.assert_cnt + 1) % U32_MOD })
  else
    let st1 := flush_assert_cnt st
    let skb1 := st1.skb ++ [Attr.KTF_A_STAT (u32ofInt result)]
    let skb2 := skb1 ++ [Attr.KTF_A_FILE file] ++ [Attr.KTF_A_NUM (u32ofInt line)]
    if allocOk then
      if msg.length < MAX_PRINTF then
        CRes.ok (result,
          { assert_cnt := st1.assert_cnt,
            skb := skb2 ++ [Attr.KTF_A_STR (String.mk (msg.data.take (MAX_PRINTF - 2)))] })
      else CRes.oobWrite msg.length MAX_PRINTF
    else CRes.nullDeref

/-- `n` consecutive passing report calls (`result` nonzero); the passing
branch of `_fail_unless` ignores the remaining arguments. -/
def reportPassN : Nat → ReportState → ReportState
  | 0, st => st
  | Nat.succ k, st =>
      match _fail_unless true st 1 "f" 0 "m" with
      | CRes.ok p => reportPassN k p.2
      | _ => st

/-! ### Concrete fixtures used by the witness and counterexample theorems -/

/-- The hook sequence the scheduler iterates for case `n` (the case's
`fun_list` in `list_for_each` order, empty when the case is absent). -/
def caseHooks (m : List KtfCase) (n : String) : List FunHook :=
  match ktf_case_find m n with
  | some c => c.fun_list
  | none => []

/-- A successful registration call, with all allocation oracles
succeeding, as a state transformer (test harness only). -/
def addRun (hid : Nat) (td : TestDesc) (th : Nat) (start end_ : Int)
    (st : KtfState) : KtfState :=
  match _tcase_add_test true true true true hid td th 0 0 start end_ st with
  | CRes.ok st' => st'
  | _ => st

/-- A state with one empty handle and no cases. -/
def st0W : KtfState := ⟨[], [(1, [])]⟩

/-- Registration of hooks `h1`, `h2`, `h3` (in that order) under the one
case `"basic"`. -/
def stOrderW : KtfState :=
  addRun 13 ⟨"h3", "basic", "t.c", 0⟩ 1 0 1
    (addRun 12 ⟨"h2", "basic", "t.c", 0⟩ 1 0 1
      (addRun 11 ⟨"h1", "basic", "t.c", 0⟩ 1 0 1 st0W))

/-- A registry in which owner 1 has hooks in two different cases and
owner 2 has one hook of its own. -/
def stOwnersW : KtfState :=
  addRun 23 ⟨"h3", "d", "t.c", 0⟩ 2 0 1
    (addRun 22 ⟨"h2", "d", "t.c", 0⟩ 1 0 1
      (addRun 21 ⟨"h1", "c", "t.c", 0⟩ 1 0 1 ⟨[], [(1, []), (2, [])]⟩))

/-! ### Helper lemmas -/

theorem ktf_cleanup_scan_eq_none (l : List KtfCase) :
    ktf_cleanup_scan l = none ↔ ∀ tc ∈ l, tc.fun_list = [] := by
  induction l with
  | nil => simp [ktf_cleanup_scan]
  | cons tc rest ih =>
      cases hfl : tc.fun_list with
      | nil =>
          simp only [ktf_cleanup_scan, hfl, ih, List.mem_cons]
          constructor
          · rintro h c (rfl | hc)
            · exact hfl
            · exact h c hc
          · intro h c hc
            exact h c (Or.inr hc)
      | cons a as =>
          simp only [ktf_cleanup_scan, hfl]
          constructor
          · intro h
            exact absurd h (by simp)
          · intro h
            have := h tc (by simp)
            rw [hfl] at this
            exact absurd this (by simp)

theorem reportPassN_eq (n : Nat) (st : ReportState) (h : st.assert_cnt < U32_MOD) :
    reportPassN n st = { st with assert_cnt := (st.assert_cnt + n) % U32_MOD } := by
  induction n generalizing st with
  | zero =>
      simp [reportPassN, Nat.mod_eq_of_lt h]
  | succ k ih =>
      have hone : (1 : Int) ≠ 0 := by decide
      have hlt : (st.assert_cnt + 1) % U32_MOD < U32_MOD :=
        Nat.mod_lt _ (by decide)
      calc reportPassN (k + 1) st
          = reportPassN k { st with assert_cnt := (st.assert_cnt + 1) % U32_MOD } := by
            simp [reportPassN, _fail_unless, hone]
        _ = { st with assert_cnt := (((st.assert_cnt + 1) % U32_MOD) + k) % U32_MOD } :=
            ih _ hlt
        _ = { st with assert_cnt := (st.assert_cnt + (k + 1)) % U32_MOD } := by
            rw [Nat.mod_add_mod, Nat.add_assoc, Nat.add_comm 1 k]

/-! ### The claims -/

/-- C9: the failing branch of `_fail_unless` is reached with
`result = 0`; when the unchecked `kmalloc(MAX_PRINTF, ...)` fails,
`vsnprintf` is handed the null buffer, so the branch dereferences an
invalid pointer instead of completing. -/
theorem fail_unless_alloc_fail_null_deref :
    _fail_unless false { assert_cnt := 0, skb := [] } 0 "t.c" 7 "m"
      = CRes.nullDeref := rfl

/-- C2: a formatted message of 4096 characters makes the failing branch
of `_fail_unless` execute `buf[len] = 0` with `len = 4096`, a store at
offset 4096 into the 4096-byte buffer: the call performs an
out-of-bounds write instead of truncating safely and completing. -/
theorem fail_unless_overlong_message_oob :
    _fail_unless true { assert_cnt := 0, skb := [] } 0 "t.c" 7
        (String.mk (List.replicate MAX_PRINTF 'a'))
      = CRes.oobWrite MAX_PRINTF MAX_PRINTF := by
  have hlen : (String.mk (List.replicate MAX_PRINTF 'a')).length = MAX_PRINTF := by
    simp [String.length, List.length_replicate]
  simp [_fail_unless, flush_assert_cnt, hlen]

/-- C6: `ktf_case_find_create` on a name not yet in the map, with the
`ktf_case` allocation failing (first conjunct) or its map-element
initialisation failing (second conjunct), passes the resulting null
case pointer straight to `ktf_map_insert` — a null-based dereference
instead of the null return the spec promises. -/
theorem ktf_case_find_create_null_deref :
    ktf_case_find_create false true true [] "alpha" = CRes.nullDeref ∧
    ktf_case_find_create true false true [] "alpha" = CRes.nullDeref := by
  constructor <;> rfl

/-- C5: whenever a `_fail_unless` call completes, the value it returns
is exactly its `result` argument, on the passing branch and on the
failing branch alike. -/
theorem fail_unless_returns_result (allocOk : Bool) (st : ReportState)
    (result : Int) (file : String) (line : Int) (msg : String)
    (r : Int) (st' : ReportState)
    (h : _fail_unless allocOk st result file line msg = CRes.ok (r, st')) :
    r = result := by
  unfold _fail_unless at h
  split at h
  · exact (Prod.mk.injEq _ _ _ _ ▸ (CRes.ok.injEq _ _).mp h).1.symm
  · split at h
    · split at h
      · exact ((Prod.mk.injEq _ _ _ _).mp ((CRes.ok.injEq _ _).mp h)).1.symm
      · exact absurd h (by simp)
    · exact absurd h (by simp)

/-- C5 witness: a concrete failing report call completes and returns its
`result` argument `0`. -/
theorem fail_unless_returns_result_wit : (0 : Int) = 0 :=
  fail_unless_returns_result true ⟨0, []⟩ 0 "t.c" 42 "m" 0
    ⟨0, [Attr.KTF_A_STAT 0, Attr.KTF_A_FILE "t.c", Attr.KTF_A_NUM 42,
         Attr.KTF_A_STR "m"]⟩ rfl

/-- C10: whenever `ktf_cleanup` returns `-EBUSY` it does so from inside
the scan loop, without executing `mutex_unlock`, so `tc_lock` is still
held; only the success return releases the lock, and every return is
one of the two. -/
theorem ktf_cleanup_busy_holds_lock (st : KtfState) :
    ((ktf_cleanup st).1 = -EBUSY → (ktf_cleanup st).2.2 = true) ∧
    ((ktf_cleanup st).1 = 0 → (ktf_cleanup st).2.2 = false) ∧
    ((ktf_cleanup st).1 = -EBUSY ∨ (ktf_cleanup st).1 = 0) := by
  unfold ktf_cleanup
  cases h : ktf_cleanup_scan st.test_cases <;> simp [EBUSY]

/-- C3: `ktf_cleanup` returns `-EBUSY` and mutates nothing whenever some
case still has a hook, and it returns `0` — deleting every case — if
and only if every case's `fun_list` is empty. -/
theorem ktf_cleanup_spec (st : KtfState) :
    ((∃ tc ∈ st.test_cases, tc.fun_list ≠ []) → ktf_cleanup st = (-EBUSY, st, true)) ∧
    ((∀ tc ∈ st.test_cases, tc.fun_list = []) →
      ktf_cleanup st = (0, { st with test_cases := [] }, false)) ∧
    ((ktf_cleanup st).1 = 0 ↔ ∀ tc ∈ st.test_cases, tc.fun_list = []) := by
  have hbusy : (∃ tc ∈ st.test_cases, tc.fun_list ≠ []) →
      ktf_cleanup st = (-EBUSY, st, true) := by
    rintro ⟨tc, htc, hne⟩
    unfold ktf_cleanup
    cases h : ktf_cleanup_scan st.test_cases with
    | none => exact absurd ((ktf_cleanup_scan_eq_none _).mp h tc htc) hne
    | some p => rfl
  have hok : (∀ tc ∈ st.test_cases, tc.fun_list = []) →
      ktf_cleanup st = (0, { st with test_cases := [] }, false) := by
    intro hall
    unfold ktf_cleanup
    rw [(ktf_cleanup_scan_eq_none st.test_cases).mpr hall]
  refine ⟨hbusy, hok, ?_⟩
  by_cases hall : ∀ tc ∈ st.test_cases, tc.fun_list = []
  · rw [hok hall]
    simpa using hall
  · push_neg at hall
    rw [hbusy hall]
    constructor
    · intro h0
      simp [EBUSY] at h0
    · intro h1
      obtain ⟨tc, htc, hne⟩ := hall
      exact absurd (h1 tc htc) hne

/-- C4 counterexample: `assert_cnt` is a `u32`, so after exactly `2^32`
consecutive passing calls it has wrapped to `0` and the next failing
call emits no flushed-count attribute at all, while the claim (taken at
`N = 2^32`) demands exactly one flushed-count attribute of value `N`
before the failure record. -/
theorem fail_unless_flush_wrap_cex :
    _fail_unless true (reportPassN U32_MOD { assert_cnt := 0, skb := [] }) 0 "t.c" 42 "m"
      = CRes.ok (0,
        { assert_cnt := 0,
          skb := [Attr.KTF_A_STAT 0, Attr.KTF_A_FILE "t.c", Attr.KTF_A_NUM 42,
                  Attr.KTF_A_STR "m"] }) := by
  rw [reportPassN_eq U32_MOD ⟨0, []⟩ (by decide)]
  decide

/-- C4 (amended): for every `N < 2^32`, a run of `N` passing reports
from a fresh reporting state followed by one failing report appends
exactly one flushed-count attribute of value `N` when `N ≠ 0` and none
when `N = 0`, followed by exactly one failure record in the order
result code, file, line, message; `assert_cnt` is zero afterwards. -/
theorem fail_unless_batched_report (N : Nat) (file : String) (line : Int)
    (msg : String) (hN : N < U32_MOD) (hmsg : msg.length < MAX_PRINTF) :
    _fail_unless true (reportPassN N { assert_cnt := 0, skb := [] }) 0 file line msg
      = CRes.ok (0,
        { assert_cnt := 0,
          skb := (if N = 0 then [] else [Attr.KTF_A_STAT N])
              ++ [Attr.KTF_A_STAT 0, Attr.KTF_A_FILE file,
                  Attr.KTF_A_NUM (u32ofInt line),
                  Attr.KTF_A_STR (String.mk (msg.data.take (MAX_PRINTF - 2)))] }) := by
  rw [reportPassN_eq N ⟨0, []⟩ (by decide)]
  simp only [Nat.zero_add, Nat.mod_eq_of_lt hN]
  by_cases h0 : N = 0
  · subst h0
    simp [_fail_unless, flush_assert_cnt, u32ofInt, hmsg]
  · simp [_fail_unless, flush_assert_cnt, u32ofInt, hmsg, h0]

/-- C4 witness: five passes then one failure from a fresh state emit the
count attribute `5` followed by the failure record, leaving the counter
at zero. -/
theorem fail_unless_batched_report_wit :
    _fail_unless true (reportPassN 5 { assert_cnt := 0, skb := [] }) 0 "t.c" 42 "timeout"
      = CRes.ok (0,
        { assert_cnt := 0,
          skb := [Attr.KTF_A_STAT 5, Attr.KTF_A_STAT 0, Attr.KTF_A_FILE "t.c",
                  Attr.KTF_A_NUM 42, Attr.KTF_A_STR "timeout"] }) :=
  fail_unless_batched_report 5 "t.c" 42 "timeout" (by decide) (by decide)

/-- C1 counterexample: registering `h1, h2, h3` in that order under case
`"basic"` yields the iteration order `h3, h2, h1` — `list_add` prepends,
`list_for_each` walks from the head — not the registration order
`h1, h2, h3` the claim asserts. -/
theorem tcase_add_test_order_reversed_cex :
    (caseHooks stOrderW.test_cases "basic").map FunHook.name = ["h3", "h2", "h1"] ∧
    (caseHooks stOrderW.test_cases "basic").map FunHook.name ≠ ["h1", "h2", "h3"] := by
  decide

/-- C1 (amended): registering hooks `h1, h2, h3` (in that order) under
the same case name in a fresh registry yields the iteration order
`h3, h2, h1`: the hook list is visited in reverse registration order. -/
theorem tcase_add_test_iteration_reverse_order
    (nm1 nm2 nm3 cls fl : String) (f1 f2 f3 : Nat) (id1 id2 id3 th : Nat)
    (sig aev s1 e1 s2 e2 s3 e3 : Int) (hs : List (Nat × List FunHook))
    (st1 st2 st3 : KtfState)
    (h1 : _tcase_add_test true true true true id1 ⟨nm1, cls, fl, f1⟩ th sig aev s1 e1
            ⟨[], hs⟩ = CRes.ok st1)
    (h2 : _tcase_add_test true true true true id2 ⟨nm2, cls, fl, f2⟩ th sig aev s2 e2
            st1 = CRes.ok st2)
    (h3 : _tcase_add_test true true true true id3 ⟨nm3, cls, fl, f3⟩ th sig aev s3 e3
            st2 = CRes.ok st3) :
    caseHooks st3.test_cases cls
      = [hookOf id3 ⟨nm3, cls, fl, f3⟩ th s3 e3,
         hookOf id2 ⟨nm2, cls, fl, f2⟩ th s2 e2,
         hookOf id1 ⟨nm1, cls, fl, f1⟩ th s1 e1] := by
  simp [_tcase_add_test, ktf_case_find_create, ktf_case_find, ktf_case_create,
    ktf_map_insert, list_add, updateHandle, hookOf] at h1
  subst h1
  simp [_tcase_add_test, ktf_case_find_create, ktf_case_find, ktf_case_create,
    ktf_map_insert, list_add, updateHandle, hookOf] at h2
  subst h2
  simp [_tcase_add_test, ktf_case_find_create, ktf_case_find, ktf_case_create,
    ktf_map_insert, list_add, updateHandle, hookOf] at h3
  subst h3
  simp [caseHooks, ktf_case_find, hookOf]

/-- C1 witness: the three concrete registrations of `stOrderW` produce
the reverse-order hook list. -/
theorem tcase_add_test_iteration_reverse_order_wit :
    caseHooks stOrderW.test_cases "basic"
      = [hookOf 13 ⟨"h3", "basic", "t.c", 0⟩ 1 0 1,
         hookOf 12 ⟨"h2", "basic", "t.c", 0⟩ 1 0 1,
         hookOf 11 ⟨"h1", "basic", "t.c", 0⟩ 1 0 1] :=
  tcase_add_test_iteration_reverse_order "h1" "h2" "h3" "basic" "t.c" 0 0 0 11 12 13 1
    0 0 0 1 0 1 0 1 [(1, [])]
    (addRun 11 ⟨"h1", "basic", "t.c", 0⟩ 1 0 1 st0W)
    (addRun 12 ⟨"h2", "basic", "t.c", 0⟩ 1 0 1
      (addRun 11 ⟨"h1", "basic", "t.c", 0⟩ 1 0 1 st0W))
    stOrderW rfl rfl rfl



theorem find_create_none (a e i : Bool) (m m2 : List KtfCase) (n : String)
    (h : ktf_case_find_create a e i m n = CRes.ok (none, m2)) : m2 = m := by
  unfold ktf_case_find_create at h
  cases hf : ktf_case_find m n <;> rw [hf] at h
  case some tc => simp at h
  case none =>
    cases hc : ktf_case_create a e n <;> rw [hc] at h
    case none => simp [ktf_map_insert] at h
    case some c =>
      simp only [ktf_map_insert] at h
      by_cases hi : i
      · subst hi
        simp only [Bool.not_true, Bool.false_eq_true, if_false, ite_false] at h
        by_cases hdup : (m.find? (fun x => x.name == c.name)).isSome
        · simp [hdup] at h
          exact h.symm
        · simp [hdup] at h
      · cases i
        · simp at h
          exact h.symm
        · exact absurd rfl hi

theorem find_create_some (a e i : Bool) (m m2 : List KtfCase) (n : String) (tc : KtfCase)
    (h : ktf_case_find_create a e i m n = CRes.ok (some tc, m2)) :
    tc.name = n ∧ ktf_case_find m2 n = some tc := by
  unfold ktf_case_find_create at h
  cases hf : ktf_case_find m n <;> rw [hf] at h
  case some tc0 =>
    simp at h
    obtain ⟨rfl, rfl⟩ := h
    have hp := List.find?_some hf
    simp at hp
    exact ⟨hp, hf⟩
  case none =>
    cases hc : ktf_case_create a e n <;> rw [hc] at h
    case none => simp [ktf_map_insert] at h
    case some c =>
      have hcn : c = ⟨n, []⟩ := by
        cases a <;> cases e <;> simp [ktf_case_create] at hc <;> exact hc.symm
      subst hcn
      simp only [ktf_map_insert] at h
      cases i
      · simp at h
      · simp only [Bool.not_true, Bool.false_eq_true, if_false, ite_false] at h
        by_cases hdup : (m.find? (fun x => x.name == (⟨n, []⟩ : KtfCase).name)).isSome
        · simp [hdup] at h
        · simp [hdup] at h
          obtain ⟨rfl, rfl⟩ := h
          refine ⟨rfl, ?_⟩
          have hfn : m.find? (fun c => c.name == n) = none := hf
          simp [ktf_case_find, List.find?_append, hfn]

theorem find?_map_pred (p : KtfCase → Bool) (f : KtfCase → KtfCase) (m : List KtfCase)
    (hf : ∀ x, p (f x) = p x) :
    (m.map f).find? p = (m.find? p).map f := by
  induction m with
  | nil => rfl
  | cons c rest ih =>
      cases hp : p c with
      | true =>
          rw [List.map_cons, List.find?_cons_of_pos _ (by rw [hf c]; exact hp),
              List.find?_cons_of_pos _ hp]
          rfl
      | false =>
          rw [List.map_cons, List.find?_cons_of_neg _ (by rw [hf c, hp]; simp),
              List.find?_cons_of_neg _ (by rw [hp]; simp), ih]

theorem lookupHandle_update (hs : List (Nat × List FunHook)) (th : Nat)
    (f : List FunHook → List FunHook)
    (hth : (hs.find? (fun p => p.1 == th)).isSome = true) :
    lookupHandle (updateHandle hs th f) th = f (lookupHandle hs th) := by
  induction hs with
  | nil => simp at hth
  | cons q rest ih =>
      obtain ⟨k, v⟩ := q
      by_cases hq : k = th
      · subst hq
        simp [updateHandle, lookupHandle]
      · have hqb : ((k, v).1 == th) = false := by simpa using hq
        rw [List.find?_cons_of_neg _ (by simp [hqb])] at hth
        simp only [updateHandle, List.map_cons]
        rw [if_neg (by simp [hqb])]
        simp only [lookupHandle]
        rw [List.find?_cons_of_neg _ (by simp [hqb]), List.find?_cons_of_neg _ (by simp [hqb])]
        have := ih hth
        simp only [lookupHandle, updateHandle] at this
        exact this


/-- C7: a completed `_tcase_add_test` call is failure-atomic: when the
hook allocation fails it returns with the state exactly unchanged; when
the case resolution comes back null the allocated hook is freed and the
state is exactly unchanged; and every completed call either changes
nothing or links the populated hook into both the case's `fun_list` and
the handle's `test_list` — never into only one of the two. -/
theorem tcase_add_test_atomic (hA cA eO iO : Bool) (hid : Nat) (td : TestDesc)
    (th : Nat) (sig aev sta en : Int) (st st' : KtfState)
    (h : _tcase_add_test hA cA eO iO hid td th sig aev sta en st = CRes.ok st')
    (hth : (st.handles.find? (fun p => p.1 == th)).isSome = true) :
    (hA = false → st' = st) ∧
    (∀ m, ktf_case_find_create cA eO iO st.test_cases td.tclass = CRes.ok (none, m)
        → st' = st) ∧
    (st' = st ∨
      (hookOf hid td th sta en ∈ caseHooks st'.test_cases td.tclass ∧
       hookOf hid td th sta en ∈ lookupHandle st'.handles th)) := by
  cases hA
  case false =>
    simp [_tcase_add_test] at h
    exact ⟨fun _ => h.symm, fun _ _ => h.symm, Or.inl h.symm⟩
  case true =>
    unfold _tcase_add_test at h
    simp only [Bool.not_true, Bool.false_eq_true, if_false, ite_false] at h
    cases hfc : ktf_case_find_create cA eO iO st.test_cases td.tclass <;> rw [hfc] at h
    case nullDeref => simp at h
    case oobWrite ix sz => simp at h
    case ok p =>
      obtain ⟨otc, m⟩ := p
      cases otc
      case none =>
        simp at h
        have hm := find_create_none cA eO iO st.test_cases m td.tclass hfc
        have hst : st' = st := by
          rw [← h, hm]
        exact ⟨fun _ => hst, fun _ _ => hst, Or.inl hst⟩
      case some tc =>
        simp only [CRes.ok.injEq] at h
        obtain ⟨hname, hfind⟩ := find_create_some cA eO iO st.test_cases m td.tclass tc hfc
        subst h
        refine ⟨fun hb => absurd hb (by simp), fun m' hm' => ?_, Or.inr ⟨?_, ?_⟩⟩
        · exact absurd hm' (by simp)
        · simp only [caseHooks, ktf_case_find]
          rw [find?_map_pred (fun c => c.name == td.tclass)
              (fun c => if (c.name == tc.name) = true
                then { name := c.name,
                       fun_list := list_add (hookOf hid td th sta en) c.fun_list }
                else c) m
              (fun x => by by_cases hx : (x.name == tc.name) = true <;> simp [hx])]
          simp only [ktf_case_find] at hfind
          rw [hfind]
          simp [list_add]
        · rw [lookupHandle_update st.handles th _ hth]
          simp [list_add]


theorem list_del_hook_length (hid : Nat) (m : List KtfCase) :
    (list_del_hook hid m).length = m.length := by
  simp [list_del_hook]

theorem foldl_del_length (hl : List FunHook) (m : List KtfCase) :
    (hl.foldl (fun acc fh => list_del_hook fh.id acc) m).length = m.length := by
  induction hl generalizing m with
  | nil => rfl
  | cons g rest ih =>
      rw [List.foldl_cons, ih, list_del_hook_length]

theorem mem_foldl_del (hl : List FunHook) (m : List KtfCase) (c : KtfCase) (h : FunHook)
    (hc : c ∈ hl.foldl (fun acc fh => list_del_hook fh.id acc) m) (hh : h ∈ c.fun_list) :
    (∃ c0 ∈ m, h ∈ c0.fun_list) ∧ ∀ g ∈ hl, g.id ≠ h.id := by
  induction hl generalizing m with
  | nil => exact ⟨⟨c, hc, hh⟩, by simp⟩
  | cons g rest ih =>
      rw [List.foldl_cons] at hc
      obtain ⟨⟨c0, hc0, hh0⟩, hall⟩ := ih (list_del_hook g.id m) hc
      simp only [list_del_hook, List.mem_map] at hc0
      obtain ⟨c1, hc1, rfl⟩ := hc0
      simp only [List.mem_filter] at hh0
      obtain ⟨hh1, hne⟩ := hh0
      refine ⟨⟨c1, hc1, hh1⟩, ?_⟩
      intro g' hg'
      rcases List.mem_cons.mp hg' with rfl | hg'
      · intro heq
        simp [bne] at hne
        exact hne heq.symm
      · exact hall g' hg'

theorem lookupHandle_update_nil (hs : List (Nat × List FunHook)) (th : Nat) :
    lookupHandle (updateHandle hs th (fun _ => [])) th = [] := by
  induction hs with
  | nil => rfl
  | cons q rest ih =>
      obtain ⟨k, v⟩ := q
      by_cases hq : k = th
      · subst hq
        simp [updateHandle, lookupHandle]
      · have hqb : ((k, v).1 == th) = false := by simpa using hq
        simp only [updateHandle, List.map_cons]
        rw [if_neg (by simp [hqb])]
        simp only [lookupHandle]
        rw [List.find?_cons_of_neg _ (by simp [hqb])]
        simp only [lookupHandle, updateHandle] at ih
        exact ih

theorem updateHandle_absent (hs : List (Nat × List FunHook)) (th : Nat)
    (f : List FunHook → List FunHook) (h : ∀ q ∈ hs, q.1 ≠ th) :
    updateHandle hs th f = hs := by
  induction hs with
  | nil => rfl
  | cons q rest ih =>
      have hq : (q.1 == th) = false := by simpa using h q (by simp)
      simp only [updateHandle, List.map_cons]
      rw [if_neg (by simp [hq])]
      have := ih (fun q' hq' => h q' (List.mem_cons_of_mem _ hq'))
      simp only [updateHandle] at this
      rw [this]

theorem updateHandle_nil_of_lookup_nil (hs : List (Nat × List FunHook)) (th : Nat)
    (hnd : (hs.map Prod.fst).Nodup) (hl : lookupHandle hs th = []) :
    updateHandle hs th (fun _ => []) = hs := by
  induction hs with
  | nil => rfl
  | cons q rest ih =>
      obtain ⟨k, v⟩ := q
      simp only [List.map_cons, List.nodup_cons] at hnd
      obtain ⟨hk, hnd'⟩ := hnd
      by_cases hq : k = th
      · subst hq
        have hv : v = [] := by
          simpa [lookupHandle] using hl
        subst hv
        simp only [updateHandle, List.map_cons]
        rw [if_pos (by simp)]
        have habs : ∀ q' ∈ rest, q'.1 ≠ k := by
          intro q' hq' heq
          exact hk (heq ▸ List.mem_map_of_mem Prod.fst hq')
        have := updateHandle_absent rest k (fun _ => []) habs
        simp only [updateHandle] at this
        rw [this]
      · have hqb : ((k, v).1 == th) = false := by simpa using hq
        have hl' : lookupHandle rest th = [] := by
          have hfind : List.find? (fun p => p.1 == th) ((k, v) :: rest)
              = List.find? (fun p => p.1 == th) rest :=
            List.find?_cons_of_neg _ (by simp [hqb])
          simpa [lookupHandle, hfind] using hl
        simp only [updateHandle, List.map_cons]
        rw [if_neg (by simp [hqb])]
        have := ih hnd' hl'
        simp only [updateHandle] at this
        rw [this]

/-- C8: after `_tcase_cleanup th`, no hook owned by handle `th` remains
in any case's `fun_list` (given the dual-list consistency the
registration path maintains), the handle's own `test_list` is empty, the
number of registered cases is unchanged, and the call is a no-op when
the handle holds no hooks. -/
theorem tcase_cleanup_owner (th : Nat) (st : KtfState)
    (hwf : ∀ c ∈ st.test_cases, ∀ h ∈ c.fun_list, h ∈ lookupHandle st.handles h.handle)
    (hnd : (st.handles.map Prod.fst).Nodup) :
    (∀ c ∈ (_tcase_cleanup th st).test_cases, ∀ h ∈ c.fun_list, h.handle ≠ th) ∧
    lookupHandle (_tcase_cleanup th st).handles th = [] ∧
    ktf_case_count (_tcase_cleanup th st) = ktf_case_count st ∧
    (lookupHandle st.handles th = [] → _tcase_cleanup th st = st) := by
  refine ⟨?_, ?_, ?_, ?_⟩
  · intro c hc h hh heq
    have hc' : c ∈ (lookupHandle st.handles th).foldl
        (fun acc fh => list_del_hook fh.id acc) st.test_cases := hc
    obtain ⟨⟨c0, hc0, hh0⟩, hall⟩ :=
      mem_foldl_del (lookupHandle st.handles th) st.test_cases c h hc' hh
    have hmem := hwf c0 hc0 h hh0
    rw [heq] at hmem
    exact hall h hmem rfl
  · exact lookupHandle_update_nil st.handles th
  · simpa [ktf_case_count, ktf_map_size, _tcase_cleanup] using
      foldl_del_length (lookupHandle st.handles th) st.test_cases
  · intro hl
    unfold _tcase_cleanup
    rw [hl]
    simp only [List.foldl_nil]
    rw [updateHandle_nil_of_lookup_nil st.handles th hnd hl]


/-- C7 witness: a concrete successful registration into a fresh registry
links the hook into both lists. -/
theorem tcase_add_test_atomic_wit :
    (true = false → addRun 5 ⟨"t1", "c", "t.c", 0⟩ 1 0 1 st0W = st0W) ∧
    (∀ m, ktf_case_find_create true true true st0W.test_cases "c" = CRes.ok (none, m)
        → addRun 5 ⟨"t1", "c", "t.c", 0⟩ 1 0 1 st0W = st0W) ∧
    (addRun 5 ⟨"t1", "c", "t.c", 0⟩ 1 0 1 st0W = st0W ∨
      (hookOf 5 ⟨"t1", "c", "t.c", 0⟩ 1 0 1 ∈
         caseHooks (addRun 5 ⟨"t1", "c", "t.c", 0⟩ 1 0 1 st0W).test_cases "c" ∧
       hookOf 5 ⟨"t1", "c", "t.c", 0⟩ 1 0 1 ∈
         lookupHandle (addRun 5 ⟨"t1", "c", "t.c", 0⟩ 1 0 1 st0W).handles 1)) :=
  tcase_add_test_atomic true true true true 5 ⟨"t1", "c", "t.c", 0⟩ 1 0 0 0 1 st0W
    (addRun 5 ⟨"t1", "c", "t.c", 0⟩ 1 0 1 st0W) rfl (by decide)

/-- C8 witness: tearing down owner 1, whose hooks live in two different
cases, removes exactly its hooks and keeps both cases registered. -/
theorem tcase_cleanup_owner_wit :
    (∀ c ∈ (_tcase_cleanup 1 stOwnersW).test_cases, ∀ h ∈ c.fun_list, h.handle ≠ 1) ∧
    lookupHandle (_tcase_cleanup 1 stOwnersW).handles 1 = [] ∧
    ktf_case_count (_tcase_cleanup 1 stOwnersW) = ktf_case_count stOwnersW ∧
    (lookupHandle stOwnersW.handles 1 = [] → _tcase_cleanup 1 stOwnersW = stOwnersW) :=
  tcase_cleanup_owner 1 stOwnersW (by decide) (by decide)


end Kcheck
